import Mathlib

/-!
Shallow embedding of the watermark-detection pipeline
(src/figma_pipeline.py, src/watermark_detection.py, src/utils.py)
and verification of its specification claims.
-/

namespace WatermarkDetection

/-! ### Asset downloader (FigmaPipeline._download_image, figma_pipeline.py lines 68-130)

An HTTP response is modelled by its status code, optional Location header,
content-type header and body bytes.  Network exceptions are modelled by
`Option`: `none` means the request raised (caught by the except clause). -/

structure HttpResponse where
  status : Nat
  location : Option String
  contentType : String
  body : List Nat
deriving Repr, DecidableEq

/-- The redirect statuses checked at line 99 of figma_pipeline.py. -/
def redirectStatuses : List Nat := [301, 302, 303, 307, 308]

/-- Embedding of the body of `_download_image` given the response `resp` to the
single request it issues to the image URL.  `fetchS3` gives the response of the
follow-up request to the Location URL (`none` models a network exception,
caught by the surrounding except clause and turned into a `None` return).
On success the function returns the saved file path and the bytes written:
the code always saves to `{input_dir}/{image_ref}.png` (line 112). -/
def downloadImage (inputDir imageRef : String) (resp : HttpResponse)
    (fetchS3 : String → Option HttpResponse) : Option (String × List Nat) :=
  if resp.status ∈ redirectStatuses then
    match resp.location with
    | none => none
    | some s3url =>
      match fetchS3 s3url with
      | none => none
      | some s3resp =>
        if s3resp.status = 200 then
          some (inputDir ++ "/" ++ imageRef ++ ".png", s3resp.body)
        else none
  else none

/-- Driver over a scripted server: `script` lists the responses the image URL
would return to successive requests.  `_download_image` contains no loop, so it
consumes exactly one scripted response; the second component counts the
requests made to the image URL (the attempts at this reference). -/
def runDownload (inputDir imageRef : String) (script : List HttpResponse)
    (fetchS3 : String → Option HttpResponse) : Option (String × List Nat) × Nat :=
  match script with
  | [] => (none, 0)
  | resp :: _ => (downloadImage inputDir imageRef resp fetchS3, 1)

/-! ### Result merger (run_inference, watermark_detection.py lines 73-92) -/

/-- One entry of result.json: `{"image": path, "status": bool, "imageRef": id}`. -/
structure DetectionResult where
  image : String
  status : Bool
  imageRef : String
deriving Repr, DecidableEq

/-- The set of imageRefs already present (line 84 of watermark_detection.py). -/
def existingRefs (results : List DetectionResult) : List String :=
  results.map DetectionResult.imageRef

/-- Lines 83-88 of watermark_detection.py: filter `newResults` down to those
whose imageRef is absent from `existing`, then append to `existing`. -/
def merge (existing newResults : List DetectionResult) : List DetectionResult :=
  existing ++ newResults.filter (fun r => !((existingRefs existing).contains r.imageRef))

/-! ### Document scanner (extract_image_nodes, figma_pipeline.py lines 193-228)

A Figma document node: `node['id']` is accessed directly (always present for
scanned nodes), `name`, `type`, `fills` and `children` are accessed with
`.get` so they may be absent (`name`/`type` optional; a missing or empty
`fills`/`children` behaves like the empty list). -/

structure Fill where
  type : Option String
  imageRef : Option String
deriving Repr, DecidableEq

inductive Node where
  | mk (id : String) (name : Option String) (type : Option String)
       (fills : List Fill) (children : List Node)
deriving Repr

def Node.id : Node → String
  | .mk i _ _ _ _ => i

def Node.name : Node → Option String
  | .mk _ n _ _ _ => n

def Node.type : Node → Option String
  | .mk _ _ t _ _ => t

def Node.fills : Node → List Fill
  | .mk _ _ _ f _ => f

def Node.children : Node → List Node
  | .mk _ _ _ _ c => c

/-- The node kinds scanned for image fills (line 198). -/
def matchingTypes : List String := ["FRAME", "COMPONENT", "INSTANCE", "IMAGE", "RECTANGLE"]

def typeMatches : Option String → Bool
  | some t => matchingTypes.contains t
  | none => false

/-- The fill loop of lines 200-220: iterate over the fills; at the FIRST fill
whose type is IMAGE, record its imageRef if it has one, then `break` (whether
or not an imageRef was present).  Returns the imageRef recorded, if any. -/
def processFills : List Fill → Option String
  | [] => none
  | f :: rest => if f.type = some "IMAGE" then f.imageRef else processFills rest

/-- One entry of the node mapping (lines 215-219). -/
structure NodeEntry where
  node_id : String
  name : String
  path : String
deriving Repr, DecidableEq

/-- `image_refs` models the Python set (insertion-ordered, duplicate-free) and
`mapping` the `image_to_nodes_map` dict (assoc list in insertion order). -/
structure ScanState where
  image_refs : List String
  mapping : List (String × List NodeEntry)
deriving Repr, DecidableEq

/-- `image_refs.add(r)` on the Python set. -/
def addRef (s : List String) (r : String) : List String :=
  if r ∈ s then s else s ++ [r]

/-- Lines 212-219: create the dict entry for `r` if absent, then append. -/
def addMapping : List (String × List NodeEntry) → String → NodeEntry →
    List (String × List NodeEntry)
  | [], r, e => [(r, [e])]
  | (k, es) :: rest, r, e =>
    if k = r then (k, es ++ [e]) :: rest else (k, es) :: addMapping rest r e

/-- The contribution of a node itself (ignoring children): lines 197-220.
The type must match and `fills` must be non-empty (Python truthiness of
`node.get('fills')`); the first IMAGE fill decides the recorded ref. -/
def scanOwn (path : String) (n : Node) (s : ScanState) : ScanState :=
  if typeMatches n.type ∧ n.fills ≠ [] then
    match processFills n.fills with
    | some r =>
      { image_refs := addRef s.image_refs r,
        mapping := addMapping s.mapping r
          ⟨n.id, n.name.getD "unnamed", path ++ "/" ++ n.name.getD "unnamed"⟩ }
    | none => s
  else s

mutual

/-- `extract_image_nodes(node, path)` threading the mutable set and dict. -/
def scanNode (path : String) (n : Node) (s : ScanState) : ScanState :=
  scanNodes (path ++ "/" ++ n.name.getD "unnamed") n.children (scanOwn path n s)
termination_by sizeOf n
decreasing_by cases n with
  | mk i nm t f c => simp [Node.children]

/-- Lines 223-225: recurse into the children in order. -/
def scanNodes (path : String) (ns : List Node) (s : ScanState) : ScanState :=
  match ns with
  | [] => s
  | n :: rest => scanNodes path rest (scanNode path n s)
termination_by sizeOf ns

end

/-- `extract_image_nodes(data['document'])` with the default `path=""` and
fresh accumulators (lines 190-191, 228). -/
def scanDocument (root : Node) : ScanState :=
  scanNode "" root ⟨[], []⟩

mutual

/-- The reference ids the scan actually records: for every node of matching
kind with non-empty fills, the imageRef carried by its first IMAGE fill. -/
def refsOfNode (n : Node) : List String :=
  (if typeMatches n.type ∧ n.fills ≠ [] then (processFills n.fills).toList else [])
    ++ refsOfNodes n.children
termination_by sizeOf n
decreasing_by cases n with
  | mk i nm t f c => simp [Node.children]

def refsOfNodes (ns : List Node) : List String :=
  match ns with
  | [] => []
  | n :: rest => refsOfNode n ++ refsOfNodes rest
termination_by sizeOf ns

end

mutual

/-- Modelled from the spec claim: the reference ids reachable via IMAGE-kind
fills anywhere in the tree, on any node, at any fill position. -/
def allImageFillRefsNode (n : Node) : List String :=
  n.fills.filterMap (fun f => if f.type = some "IMAGE" then f.imageRef else none)
    ++ allImageFillRefsNodes n.children
termination_by sizeOf n
decreasing_by cases n with
  | mk i nm t f c => simp [Node.children]

def allImageFillRefsNodes (ns : List Node) : List String :=
  match ns with
  | [] => []
  | n :: rest => allImageFillRefsNode n ++ allImageFillRefsNodes rest
termination_by sizeOf ns

end

/-! ### Batch processing (FigmaPipeline._process_batch, figma_pipeline.py lines 132-164)

`download` abstracts `_download_image` for one reference: `none` is a failed
or exception-raising download, `some p` the returned file path. -/

/-- Lines 136-143: gather the per-reference results in input order, then keep
the paths that are not `None` (`[path for path in downloaded_paths if path is
not None]`). -/
def processBatch (download : String → Option String) (image_refs : List String) :
    List String :=
  (image_refs.map download).filterMap id

/-- Lines 158-162: the failed references, read off `zip(image_refs,
downloaded_paths)` keeping those whose path is `None`. -/
def failedRefs (download : String → Option String) (image_refs : List String) :
    List String :=
  (image_refs.zip (image_refs.map download)).filterMap
    (fun p => if p.2.isNone then some p.1 else none)

/-! ### Detection pass (run_inference, watermark_detection.py lines 23-95) -/

def INPUT_DIR : String := "input_images"
def OUTPUT_DIR : String := "output_images"

/-- The path `_download_image` saves a reference to (figma_pipeline.py line 112). -/
def inputPathOf (ref : String) : String := INPUT_DIR ++ "/" ++ ref ++ ".png"

/-- The output path `run_inference` records (watermark_detection.py lines 42-43). -/
def outputPathOf (ref : String) : String := OUTPUT_DIR ++ "/" ++ ref ++ ".png"

/-- Lines 29-71 of watermark_detection.py: `for (image_path, image_ref) in
zip(image_paths, image_refs)`; `ok p` models whether enhancing/predicting the
image at path `p` succeeds (on failure the loop `continue`s, appending
nothing); `score p` is the detector verdict (`len(result.boxes) > 0`) for the
image at path `p`. -/
def watermarkStatus (ok score : String → Bool) (image_paths image_refs : List String) :
    List DetectionResult :=
  (image_paths.zip image_refs).filterMap
    (fun p => if ok p.1 then some ⟨outputPathOf p.2, score p.1, p.2⟩ else none)

/-- `run_inference(image_paths, image_refs)` given the prior contents of
result.json: compute the batch verdicts, then merge (lines 73-92). -/
def run_inference (ok score : String → Bool) (image_paths image_refs : List String)
    (existing : List DetectionResult) : List DetectionResult :=
  merge existing (watermarkStatus ok score image_paths image_refs)

/-! ### Pipeline orchestrator (FigmaPipeline.run_pipeline, figma_pipeline.py lines 259-339) -/

/-- `image_refs[i:i+batch_size]` for `i in range(0, len(image_refs),
batch_size)` (line 284-285). -/
def chunks (bs : Nat) : List String → List (List String)
  | [] => []
  | x :: xs =>
    if _h : bs = 0 then [] else (x :: xs).take bs :: chunks bs ((x :: xs).drop bs)
termination_by l => l.length
decreasing_by simp [List.length_drop]; omega

/-- The mutable state threaded through the batch loop, together with the
input-directory contents (file names) and, for each completed batch
iteration, a snapshot of the directory at the end of that iteration — i.e.
after that batch's detection completed and before the next batch's downloads
begin. -/
structure PipeState where
  dir : List String
  store : List DetectionResult
  totalProcessed : Nat
  totalFailed : Nat
  successfulBatches : Nat
  dirTrace : List (List String)
deriving Repr, DecidableEq

/-- Writing `{ref}.png` into the input directory (overwrite is a no-op on the
name set). -/
def addFile (d : List String) (f : String) : List String :=
  if f ∈ d then d else d ++ [f]

/-- One iteration of the batch loop (lines 284-320): download the batch
(each successful download writes `{ref}.png` into the input directory), and
if any download succeeded run detection and recount from result.json
(lines 302-317).  No statement of the loop clears the input directory. -/
def stepBatch (succ : String → Bool) (ok score : String → Bool)
    (st : PipeState) (batch : List String) : PipeState :=
  let download : String → Option String := fun r => if succ r then some (inputPathOf r) else none
  let dir1 := (batch.filter succ).foldl (fun d r => addFile d (r ++ ".png")) st.dir
  let downloaded := processBatch download batch
  if downloaded = [] then
    { st with dir := dir1, dirTrace := st.dirTrace ++ [dir1] }
  else
    let store1 := run_inference ok score downloaded batch st.store
    let processedInBatch := (store1.filter (fun r => batch.contains r.imageRef)).length
    { dir := dir1,
      store := store1,
      totalProcessed := st.totalProcessed + processedInBatch,
      totalFailed := st.totalFailed + (batch.length - processedInBatch),
      successfulBatches := st.successfulBatches + 1,
      dirTrace := st.dirTrace ++ [dir1] }

/-- Line 327: `(total_processed/total_images)*100` — Python raises
`ZeroDivisionError` when `total_images` is zero, modelled by `none`. -/
def successRateOpt (processed total : Nat) : Option ℚ :=
  if total = 0 then none else some ((processed : ℚ) / (total : ℚ) * 100)

inductive PipelineOutcome where
  | completed (totalImages processed failed : Nat) (ratePct : ℚ)
  | error (msg : String)
deriving Repr, DecidableEq

/-- `run_pipeline` after the scan produced `refs`: batch loop then summary.
The whole body sits in a try/except (lines 261-339); the `ZeroDivisionError`
raised while formatting the success rate is caught there and logged as
`Pipeline error`, so the run ends in an error report, not a summary.
(`total_batches = (len+bs-1)//bs` at line 273 likewise raises
`ZeroDivisionError` when `bs = 0`.) -/
def runPipelineModel (bs : Nat) (succ ok score : String → Bool)
    (refs : List String) (store0 : List DetectionResult) (dir0 : List String) :
    PipelineOutcome × PipeState :=
  let st0 : PipeState := ⟨dir0, store0, 0, 0, 0, []⟩
  if bs = 0 then (.error "Pipeline error: ZeroDivisionError", st0)
  else
    let final := (chunks bs refs).foldl (stepBatch succ ok score) st0
    match successRateOpt final.totalProcessed refs.length with
    | none => (.error "Pipeline error: ZeroDivisionError", final)
    | some rate =>
      (.completed refs.length final.totalProcessed final.totalFailed rate, final)

/-! ## Theorems -/

/-! ### Result-merger claims (C4, C5) -/

/-- Every element of `existing` has its imageRef in the existing-ref set, so
the merge filter drops all of `existing`. -/
theorem filter_keep_self_eq_nil (A : List DetectionResult) :
    A.filter (fun r => !((existingRefs A).contains r.imageRef)) = [] := by
  rw [List.filter_eq_nil_iff]
  intro a ha
  simp [existingRefs]
  exact ⟨a, ha, rfl⟩

/-- C4: merge is idempotent.  `merge A (merge A B) = merge A B`, and running
merge a second time with the same `newResults` is a no-op:
`merge (merge A B) B = merge A B`. -/
theorem merge_idempotent (A B : List DetectionResult) :
    merge A (merge A B) = merge A B ∧ merge (merge A B) B = merge A B := by
  constructor
  · unfold merge
    rw [List.filter_append, filter_keep_self_eq_nil, List.filter_filter]
    simp
  · unfold merge
    have h : B.filter (fun r =>
        !((existingRefs (A ++ B.filter
          (fun r => !((existingRefs A).contains r.imageRef)))).contains r.imageRef)) = [] := by
      rw [List.filter_eq_nil_iff]
      intro a ha
      simp [existingRefs]
      intro hA
      exact ⟨a, ha, hA, rfl⟩
    rw [h]
    simp

/-- C5 counterexample: the claim also asserts the merged output has at most
one entry per referenceId; with `existingResults = []` and two new results
carrying the same referenceId "x", the merged output contains the id "x"
twice. -/
theorem merge_duplicate_counterexample :
    (merge [] [⟨"output_images/x.png", false, "x"⟩, ⟨"output_images/x.png", false, "x"⟩]).length = 2 ∧
    ¬ ((merge [] [⟨"output_images/x.png", false, "x"⟩,
        ⟨"output_images/x.png", false, "x"⟩]).map DetectionResult.imageRef).Nodup := by
  constructor
  · rfl
  · decide

/-- C5 amended: merge never removes or overwrites an existing entry — the
merged output begins with `existingResults` unchanged and in position
(`take` recovers it) — and the merged output has at most one entry per
referenceId PROVIDED both inputs each carry distinct referenceIds. -/
theorem merge_preserves_existing (A B : List DetectionResult) :
    (merge A B).take A.length = A ∧
    ((existingRefs A).Nodup → (existingRefs B).Nodup →
      (existingRefs (merge A B)).Nodup) := by
  constructor
  · unfold merge
    exact List.take_left A _
  · intro hA hB
    unfold merge existingRefs
    rw [List.map_append]
    apply List.Nodup.append hA (((List.filter_sublist _).map _).nodup hB)
    intro x hxA hxf
    simp at hxf
    obtain ⟨r, ⟨hrB, hr⟩, hre⟩ := hxf
    subst hre
    obtain ⟨b, hbA, hbe⟩ := List.mem_map.mp hxA
    exact hr b hbA hbe

/-- Witness for `merge_preserves_existing` at concrete inputs. -/
theorem merge_preserves_existing_witness :
    (merge [⟨"output_images/a.png", true, "a"⟩]
        [⟨"output_images/b.png", false, "b"⟩]).take 1 = [⟨"output_images/a.png", true, "a"⟩] ∧
    (existingRefs (merge [⟨"output_images/a.png", true, "a"⟩]
        [⟨"output_images/b.png", false, "b"⟩])).Nodup := by
  have h := merge_preserves_existing [⟨"output_images/a.png", true, "a"⟩]
    [⟨"output_images/b.png", false, "b"⟩]
  exact ⟨h.1, h.2 (by decide) (by decide)⟩

/-! ### Downloader claims (C1, C3) -/

/-- C1 counterexample: the claim predicts that two consecutive 429 responses
followed by a 200 make the download succeed after exactly 3 attempts.  In the
code a 429 first response is not a redirect, so `_download_image` returns
`None` at once: the download fails after exactly 1 attempt and the later
scripted responses are never requested. -/
theorem download_retry_counterexample :
    runDownload "input_images" "r"
      [⟨429, none, "", []⟩, ⟨429, none, "", []⟩, ⟨200, none, "", []⟩] (fun _ => none)
      = (none, 1) ∧
    ¬ ((runDownload "input_images" "r"
        [⟨429, none, "", []⟩, ⟨429, none, "", []⟩, ⟨200, none, "", []⟩]
        (fun _ => none)).1.isSome = true ∧
       (runDownload "input_images" "r"
        [⟨429, none, "", []⟩, ⟨429, none, "", []⟩, ⟨200, none, "", []⟩]
        (fun _ => none)).2 = 3) := by
  refine ⟨rfl, ?_⟩
  decide

/-- C1 amended: `_download_image` performs no retry and no backoff — it makes
exactly one request to the reference URL regardless of the scripted responses.
Any non-redirect first status (403, 429, 502, 503, 404, even 200) fails the
download immediately after that single attempt; in particular the script
429, 429, 200 fails after exactly 1 attempt, as does a single 404. -/
theorem download_single_attempt (inputDir imageRef : String)
    (resp : HttpResponse) (rest : List HttpResponse)
    (fetchS3 : String → Option HttpResponse) :
    (runDownload inputDir imageRef (resp :: rest) fetchS3).2 = 1 ∧
    runDownload inputDir imageRef (resp :: rest) fetchS3
      = runDownload inputDir imageRef [resp] fetchS3 ∧
    (resp.status ∉ redirectStatuses →
      runDownload inputDir imageRef (resp :: rest) fetchS3 = (none, 1)) ∧
    (∀ f, runDownload inputDir imageRef
        [⟨429, none, "", []⟩, ⟨429, none, "", []⟩, ⟨200, none, "", []⟩] f = (none, 1)) ∧
    (∀ f, runDownload inputDir imageRef [⟨404, none, "", []⟩] f = (none, 1)) := by
  refine ⟨rfl, rfl, ?_, fun f => rfl, fun f => rfl⟩
  intro h
  simp [runDownload, downloadImage, h]

/-- Witness for `download_single_attempt` at a concrete 404 response. -/
theorem download_single_attempt_witness :
    runDownload "input_images" "r" [⟨404, none, "", []⟩] (fun _ => none) = (none, 1) :=
  (download_single_attempt "input_images" "r" ⟨404, none, "", []⟩ []
    (fun _ => none)).2.2.1 (by decide)

/-- C3 counterexample: the claim predicts a `.jpg` extension for a 200
response whose content-type is image/jpeg, but the code saves to
`{workingDir}/{referenceId}.png` unconditionally. -/
theorem download_extension_counterexample :
    downloadImage "input_images" "r" ⟨302, some "s3loc", "", []⟩
      (fun _ => some ⟨200, none, "image/jpeg", [1]⟩)
      = some ("input_images/r.png", [1]) ∧
    ("input_images/r.png" : String) ≠ "input_images/r.jpg" := by
  refine ⟨rfl, ?_⟩
  decide

/-- C3 amended: on a successful download the body bytes of the 200 response
from the redirect target are written to `{workingDir}/{referenceId}.png` —
the extension is always `.png`, the content-type header is never inspected
(the outcome is invariant under changing every content-type in the exchange),
and a non-image content-type such as text/html does not fail the download. -/
theorem download_always_png (inputDir imageRef : String) (resp : HttpResponse)
    (fetchS3 : String → Option HttpResponse) :
    (∀ p bytes, downloadImage inputDir imageRef resp fetchS3 = some (p, bytes) →
      p = inputDir ++ "/" ++ imageRef ++ ".png" ∧
      ∃ u s3, resp.location = some u ∧ fetchS3 u = some s3 ∧ s3.status = 200 ∧
        bytes = s3.body) ∧
    (∀ ct ct2, downloadImage inputDir imageRef ⟨resp.status, resp.location, ct, resp.body⟩
        (fun u => (fetchS3 u).map (fun s => ⟨s.status, s.location, ct2, s.body⟩))
      = downloadImage inputDir imageRef resp fetchS3) ∧
    downloadImage inputDir imageRef ⟨302, some "u", "", []⟩
      (fun _ => some ⟨200, none, "text/html", [9]⟩)
      = some (inputDir ++ "/" ++ imageRef ++ ".png", [9]) := by
  refine ⟨?_, ?_, rfl⟩
  · intro p bytes h
    unfold downloadImage at h
    by_cases hs : resp.status ∈ redirectStatuses
    · rw [if_pos hs] at h
      cases hl : resp.location with
      | none => simp only [hl] at h; cases h
      | some u =>
        simp only [hl] at h
        cases hf : fetchS3 u with
        | none => simp only [hf] at h; cases h
        | some s3 =>
          simp only [hf] at h
          by_cases h200 : s3.status = 200
          · rw [if_pos h200] at h
            injection h with h
            injection h with h1 h2
            exact ⟨h1.symm, u, s3, rfl, hf, h200, h2.symm⟩
          · rw [if_neg h200] at h; cases h
    · rw [if_neg hs] at h; cases h
  · intro ct ct2
    unfold downloadImage
    by_cases hs : resp.status ∈ redirectStatuses
    · simp only [hs, if_pos]
      cases hl : resp.location with
      | none => rfl
      | some u =>
        cases hf : fetchS3 u with
        | none => simp [hf]
        | some s3 => simp [hf]
    · simp [hs]

/-- Witness for `download_always_png` at a concrete successful exchange. -/
theorem download_always_png_witness :
    "input_images/r.png" = "input_images" ++ "/" ++ "r" ++ ".png" ∧
    ∃ u s3, (HttpResponse.mk 302 (some "u") "" []).location = some u ∧
      (fun _ => some (HttpResponse.mk 200 none "image/png" [5]) :
        String → Option HttpResponse) u = some s3 ∧
      s3.status = 200 ∧ ([5] : List Nat) = s3.body :=
  (download_always_png "input_images" "r" ⟨302, some "u", "", []⟩
    (fun _ => some ⟨200, none, "image/png", [5]⟩)).1 "input_images/r.png" [5] rfl

/-! ### Batch processing claims (C8, C9) -/

theorem processBatch_eq_filterMap (d : String → Option String) (refs : List String) :
    processBatch d refs = refs.filterMap d := by
  simp [processBatch, List.filterMap_map]

theorem filterMap_filter_isSome (d : String → Option String) (refs : List String) :
    (refs.filter (fun r => (d r).isSome)).filterMap d = refs.filterMap d := by
  induction refs with
  | nil => rfl
  | cons x xs ih =>
    cases hx : d x with
    | none => simp [List.filter_cons, List.filterMap_cons, hx, ih]
    | some v => simp [List.filter_cons, List.filterMap_cons, hx, ih]

/-- Removing a reference whose download fails does not change the successful
download list. -/
theorem filterMap_filter_ne_of_none (d : String → Option String) (r : String)
    (hd : d r = none) (refs : List String) :
    (refs.filter (fun x => x ≠ r)).filterMap d = refs.filterMap d := by
  induction refs with
  | nil => rfl
  | cons x xs ih =>
    simp only [ne_eq, decide_not] at ih
    by_cases hx : x = r
    · subst hx
      simp [List.filter_cons, List.filterMap_cons, hd, ih]
    · cases hdx : d x with
      | none => simp [List.filter_cons, List.filterMap_cons, hx, hdx, ih]
      | some v => simp [List.filter_cons, List.filterMap_cons, hx, hdx, ih]

theorem failedRefs_eq_filter (d : String → Option String) (refs : List String) :
    failedRefs d refs = refs.filter (fun r => (d r).isNone) := by
  unfold failedRefs
  induction refs with
  | nil => rfl
  | cons x xs ih =>
    simp only [Option.isNone_iff_eq_none] at ih
    cases hx : d x with
    | none => simp [List.filter_cons, List.filterMap_cons, hx, ih]
    | some v => simp [List.filter_cons, List.filterMap_cons, hx, ih]

theorem filterMap_isNone_length_sum (d : String → Option String) (refs : List String) :
    (refs.filterMap d).length + (refs.filter (fun r => (d r).isNone)).length
      = refs.length := by
  induction refs with
  | nil => rfl
  | cons x xs ih =>
    cases hx : d x with
    | none => simp [List.filter_cons, List.filterMap_cons, hx] ; omega
    | some v => simp [List.filter_cons, List.filterMap_cons, hx] ; omega

/-- C8: in `_process_batch` the successful-path list is exactly the
per-reference outcomes with failures filtered out, keeps the original
reference order (it is the filterMap over the batch, equivalently the
filterMap over the order-preserving sublist of successful references of the
batch), a failed reference contributes nothing (removing it leaves the
successful list unchanged — its failure affects only its own outcome), the
failure report lists exactly the failed references, and every reference is
accounted for as either a success or a failure. -/
theorem batch_filter_preserves_order (d : String → Option String)
    (refs : List String) (r : String) :
    processBatch d refs = refs.filterMap d ∧
    processBatch d refs = (refs.filter (fun x => (d x).isSome)).filterMap d ∧
    List.Sublist (refs.filter (fun x => (d x).isSome)) refs ∧
    (d r = none → processBatch d (refs.filter (fun x => x ≠ r)) = processBatch d refs) ∧
    failedRefs d refs = refs.filter (fun x => (d x).isNone) ∧
    (processBatch d refs).length + (failedRefs d refs).length = refs.length := by
  refine ⟨processBatch_eq_filterMap d refs, ?_, List.filter_sublist _, ?_,
    failedRefs_eq_filter d refs, ?_⟩
  · rw [processBatch_eq_filterMap, filterMap_filter_isSome]
  · intro hd
    rw [processBatch_eq_filterMap, processBatch_eq_filterMap,
      filterMap_filter_ne_of_none d r hd]
  · rw [processBatch_eq_filterMap, failedRefs_eq_filter]
    exact filterMap_isNone_length_sum d refs

/-- Witness for `batch_filter_preserves_order` at a concrete batch where the
download of "b" fails. -/
theorem batch_filter_preserves_order_witness :
    processBatch (fun x => if x = "b" then none else some (inputPathOf x))
      ((["a", "b", "c"] : List String).filter (fun x => x ≠ "b"))
      = processBatch (fun x => if x = "b" then none else some (inputPathOf x))
          ["a", "b", "c"] :=
  (batch_filter_preserves_order (fun x => if x = "b" then none else some (inputPathOf x))
    ["a", "b", "c"] "b").2.2.2.1 (by decide)

/-- C9: `run_inference` pairs paths and references positionally.  When every
download of the batch succeeded the i-th path is the i-th reference's file
and each recorded result's referenceId matches the scored image; with a
failed download (batch ["a","b"], only "b" downloaded), the single result is
recorded under referenceId "a" while the image actually scored is
`input_images/b.png`, a different reference's file. -/
theorem inference_positional_zip :
    (∀ (score : String → Bool) (paths refs : List String),
      watermarkStatus (fun _ => true) score paths refs
        = (paths.zip refs).map (fun p => ⟨outputPathOf p.2, score p.1, p.2⟩)) ∧
    (∀ (score : String → Bool) (refs : List String),
      watermarkStatus (fun _ => true) score (refs.map inputPathOf) refs
        = refs.map (fun r => ⟨outputPathOf r, score (inputPathOf r), r⟩)) ∧
    (∀ score : String → Bool,
      watermarkStatus (fun _ => true) score [inputPathOf "b"] ["a", "b"]
        = [⟨outputPathOf "a", score (inputPathOf "b"), "a"⟩]) ∧
    inputPathOf "b" ≠ inputPathOf "a" := by
  have h1 : ∀ (score : String → Bool) (paths refs : List String),
      watermarkStatus (fun _ => true) score paths refs
        = (paths.zip refs).map (fun p => ⟨outputPathOf p.2, score p.1, p.2⟩) := by
    intro score paths refs
    unfold watermarkStatus
    simp
    generalize paths.zip refs = l
    induction l with
    | nil => rfl
    | cons y ys ih => simp [List.filterMap_cons, ih]
  refine ⟨h1, ?_, fun score => rfl, by decide⟩
  intro score refs
  rw [h1]
  induction refs with
  | nil => rfl
  | cons x xs ih => simp [List.zip_cons_cons, ih]

/-! ### Document-scanner claims (C6, C7) -/

theorem mem_addRef (l : List String) (r x : String) :
    x ∈ addRef l r ↔ x ∈ l ∨ x = r := by
  unfold addRef
  by_cases h : r ∈ l
  · simp [h]
    intro hx
    subst hx
    exact h
  · simp [h]

theorem nodup_addRef (l : List String) (r : String) (h : l.Nodup) :
    (addRef l r).Nodup := by
  unfold addRef
  by_cases hr : r ∈ l
  · simpa [hr] using h
  · rw [if_neg hr, List.nodup_append]
    refine ⟨h, by simp, ?_⟩
    intro a ha hb
    simp at hb
    subst hb
    exact hr ha

/-- Effect of a node's own fill scan on the reference set. -/
theorem scanOwn_image_refs (path : String) (n : Node) (s : ScanState) :
    (∀ x, x ∈ (scanOwn path n s).image_refs ↔ x ∈ s.image_refs ∨
      x ∈ (if typeMatches n.type ∧ n.fills ≠ [] then (processFills n.fills).toList else [])) ∧
    (s.image_refs.Nodup → (scanOwn path n s).image_refs.Nodup) := by
  unfold scanOwn
  by_cases hcon : typeMatches n.type ∧ n.fills ≠ []
  · rw [if_pos hcon, if_pos hcon]
    cases hp : processFills n.fills with
    | none =>
      simp only [hp]
      simp
    | some r =>
      simp only [hp]
      constructor
      · intro x
        simp [mem_addRef]
      · intro hnd
        exact nodup_addRef _ _ hnd
  · rw [if_neg hcon, if_neg hcon]
    simp

/-- Strong induction on tree size: the scan of a node list adds exactly the
first-image-fill references of matching nodes, and keeps the reference set
duplicate-free. -/
theorem scanNodes_refs_aux (k : Nat) : ∀ (ns : List Node), sizeOf ns ≤ k →
    ∀ (path : String) (s : ScanState),
    (∀ x, x ∈ (scanNodes path ns s).image_refs ↔
      x ∈ s.image_refs ∨ x ∈ refsOfNodes ns) ∧
    (s.image_refs.Nodup → (scanNodes path ns s).image_refs.Nodup) := by
  induction k with
  | zero =>
    intro ns hns
    exfalso
    cases ns <;> simp at hns
  | succ k ih =>
    intro ns hns path s
    match ns with
    | [] =>
      rw [scanNodes]
      simp [refsOfNodes]
    | n :: rest =>
      have hsz : sizeOf n.children ≤ k ∧ sizeOf rest ≤ k := by
        have h1 : sizeOf n.children < sizeOf n := by
          cases n with
          | mk i nm t f c => simp [Node.children]
        have h2 : sizeOf (n :: rest) = 1 + sizeOf n + sizeOf rest := by simp
        omega
      rw [scanNodes, scanNode]
      have hown := scanOwn_image_refs path n s
      have hchild := ih n.children hsz.1 (path ++ "/" ++ n.name.getD "unnamed")
        (scanOwn path n s)
      have hrest := ih rest hsz.2 path
        (scanNodes (path ++ "/" ++ n.name.getD "unnamed") n.children (scanOwn path n s))
      constructor
      · intro x
        rw [hrest.1 x, hchild.1 x, hown.1 x, refsOfNodes, refsOfNode]
        simp [List.mem_append]
        tauto
      · intro hnd
        exact hrest.2 (hchild.2 (hown.2 hnd))

/-- C6 counterexample: a TEXT node carrying an IMAGE fill with reference "r".
The reference is reachable via an IMAGE-kind fill, but TEXT is not among the
scanned node kinds, so the scan returns the empty reference set — the two
sets differ. -/
theorem scan_refs_counterexample :
    ("r" ∈ allImageFillRefsNode (Node.mk "1" (some "t") (some "TEXT")
        [⟨some "IMAGE", some "r"⟩] [])) ∧
    ¬ ("r" ∈ (scanDocument (Node.mk "1" (some "t") (some "TEXT")
        [⟨some "IMAGE", some "r"⟩] [])).image_refs) := by
  constructor
  · simp [allImageFillRefsNode, allImageFillRefsNodes, Node.fills, Node.children]
  · simp [scanDocument, scanNode, scanNodes, scanOwn, typeMatches, matchingTypes,
      Node.type, Node.children]

/-- C6 amended: for every document tree, the scanned reference set contains no
duplicates and equals, as a set, the references carried by the FIRST
IMAGE-kind fill of each node whose kind is in {FRAME, COMPONENT, INSTANCE,
IMAGE, RECTANGLE} and whose fill list is non-empty — not all references
reachable via IMAGE-kind fills. -/
theorem scan_refs_characterization (root : Node) :
    (scanDocument root).image_refs.Nodup ∧
    (∀ x, x ∈ (scanDocument root).image_refs ↔ x ∈ refsOfNode root) := by
  have heq : scanDocument root = scanNodes "" [root] ⟨[], []⟩ := by
    rw [scanNodes, scanNodes, scanDocument]
  have h := scanNodes_refs_aux (sizeOf [root]) [root] le_rfl "" ⟨[], []⟩
  rw [heq]
  refine ⟨h.2 (by simp), fun x => ?_⟩
  rw [h.1 x, refsOfNodes, refsOfNodes]
  simp

/-- C7 counterexample: a RECTANGLE node with two IMAGE fills whose FIRST
IMAGE fill carries no reference id.  The claim predicts the first IMAGE fill
WITH a reference id (the second fill, id "r") is recorded, yielding one
mapping entry; the code `break`s at the first IMAGE fill regardless, so
nothing is recorded at all. -/
theorem first_fill_counterexample :
    (scanDocument (Node.mk "1" (some "n") (some "RECTANGLE")
        [⟨some "IMAGE", none⟩, ⟨some "IMAGE", some "r"⟩] [])).mapping = [] ∧
    (scanDocument (Node.mk "1" (some "n") (some "RECTANGLE")
        [⟨some "IMAGE", none⟩, ⟨some "IMAGE", some "r"⟩] [])).image_refs = [] ∧
    "r" ∈ allImageFillRefsNode (Node.mk "1" (some "n") (some "RECTANGLE")
        [⟨some "IMAGE", none⟩, ⟨some "IMAGE", some "r"⟩] []) := by
  refine ⟨?_, ?_, ?_⟩
  · simp [scanDocument, scanNode, scanNodes, scanOwn, typeMatches, matchingTypes,
      Node.type, Node.fills, Node.children, processFills]
  · simp [scanDocument, scanNode, scanNodes, scanOwn, typeMatches, matchingTypes,
      Node.type, Node.fills, Node.children, processFills]
  · simp [allImageFillRefsNode, allImageFillRefsNodes, Node.fills, Node.children]

/-- C7 amended: for a scanned node of matching kind, only the FIRST
IMAGE-kind fill is ever examined: if it carries a reference id the node is
recorded under that id with exactly one mapping entry, and if it does not,
nothing is recorded for the node even when a later IMAGE fill carries an id;
fills after the first IMAGE fill never influence the result.  A node with two
IMAGE fills (ids "r1" then "r2") yields exactly the one entry for "r1". -/
theorem first_image_fill_only (id : String) (nm : Option String) (ty : Option String)
    (fills : List Fill) (path : String) (s : ScanState)
    (hty : typeMatches ty = true) :
    (∀ r, processFills fills = some r →
      scanNode path (Node.mk id nm ty fills []) s
        = ⟨addRef s.image_refs r,
           addMapping s.mapping r
             ⟨id, nm.getD "unnamed", path ++ "/" ++ nm.getD "unnamed"⟩⟩) ∧
    (processFills fills = none →
      scanNode path (Node.mk id nm ty fills []) s = s) ∧
    (∀ (f : Fill) (rest rest2 : List Fill), f.type = some "IMAGE" →
      processFills (f :: rest) = processFills (f :: rest2)) ∧
    (scanDocument (Node.mk "1" (some "n") (some "RECTANGLE")
        [⟨some "IMAGE", some "r1"⟩, ⟨some "IMAGE", some "r2"⟩] [])).mapping
      = [("r1", [⟨"1", "n", "/n"⟩])] := by
  refine ⟨?_, ?_, ?_, ?_⟩
  · intro r hr
    have hne : fills ≠ [] := by
      intro h
      subst h
      simp [processFills] at hr
    rw [scanNode]
    simp only [Node.children]
    simp only [scanNodes]
    unfold scanOwn
    rw [if_pos ⟨by simpa [Node.type] using hty, by simpa [Node.fills] using hne⟩]
    simp only [Node.fills, hr, Node.id, Node.name]
  · intro hr
    rw [scanNode]
    simp only [Node.children]
    simp only [scanNodes]
    unfold scanOwn
    by_cases hcon : typeMatches (Node.mk id nm ty fills []).type ∧
        (Node.mk id nm ty fills []).fills ≠ []
    · rw [if_pos hcon]
      simp only [Node.fills, hr]
    · rw [if_neg hcon]
  · intro f rest rest2 hf
    simp [processFills, hf]
  · simp [scanDocument, scanNode, scanNodes, scanOwn, typeMatches, matchingTypes,
      Node.type, Node.fills, Node.id, Node.name, Node.children, processFills,
      addRef, addMapping]

/-- Witness for `first_image_fill_only` at a concrete RECTANGLE node. -/
theorem first_image_fill_only_witness :
    scanNode "" (Node.mk "1" (some "n") (some "RECTANGLE") [⟨some "IMAGE", some "r"⟩] [])
        ⟨[], []⟩
      = ⟨addRef [] "r", addMapping [] "r" ⟨"1", "n", "" ++ "/" ++ "n"⟩⟩ :=
  (first_image_fill_only "1" (some "n") (some "RECTANGLE") [⟨some "IMAGE", some "r"⟩]
    "" ⟨[], []⟩ (by decide)).1 "r" rfl

/-! ### Pipeline-orchestrator claims (C2, C10) -/

theorem foldl_addFile_extends (fs : List String) :
    ∀ d, ∃ e, fs.foldl (fun d r => addFile d (r ++ ".png")) d = d ++ e := by
  induction fs with
  | nil =>
    intro d
    exact ⟨[], by simp⟩
  | cons x xs ih =>
    intro d
    rw [List.foldl_cons]
    obtain ⟨e, he⟩ := ih (addFile d (x ++ ".png"))
    rw [he]
    unfold addFile
    by_cases hf : (x ++ ".png") ∈ d
    · rw [if_pos hf]
      exact ⟨e, rfl⟩
    · rw [if_neg hf]
      exact ⟨[x ++ ".png"] ++ e, by simp⟩

theorem mem_foldl_addFile (fs : List String) :
    ∀ d r, r ∈ fs →
      (r ++ ".png") ∈ fs.foldl (fun d r => addFile d (r ++ ".png")) d := by
  induction fs with
  | nil =>
    intro d r h
    cases h
  | cons x xs ih =>
    intro d r h
    rw [List.foldl_cons]
    rcases List.mem_cons.mp h with rfl | hxs
    · obtain ⟨e, he⟩ := foldl_addFile_extends xs (addFile d (r ++ ".png"))
      rw [he]
      apply List.mem_append_left
      unfold addFile
      by_cases hf : (r ++ ".png") ∈ d
      · rw [if_pos hf]
        exact hf
      · rw [if_neg hf]
        simp
    · exact ih _ r hxs

/-- One batch iteration only appends to the input directory and appends one
snapshot to the trace — it never removes a file. -/
theorem stepBatch_spec (succ ok score : String → Bool) (st : PipeState)
    (batch : List String) :
    ∃ e, (stepBatch succ ok score st batch).dir = st.dir ++ e ∧
      (stepBatch succ ok score st batch).dirTrace
        = st.dirTrace ++ [(stepBatch succ ok score st batch).dir] := by
  obtain ⟨e, he⟩ := foldl_addFile_extends (batch.filter succ) st.dir
  refine ⟨e, ?_, ?_⟩
  · simp only [stepBatch]
    split <;> simpa using he
  · simp only [stepBatch]
    split <;> simp

theorem stepBatch_mem (succ ok score : String → Bool) (st : PipeState)
    (batch : List String) (r : String) (hr : r ∈ batch) (hs : succ r = true) :
    (r ++ ".png") ∈ (stepBatch succ ok score st batch).dir := by
  have hm : r ∈ batch.filter succ := List.mem_filter.mpr ⟨hr, hs⟩
  have := mem_foldl_addFile (batch.filter succ) st.dir r hm
  simp only [stepBatch]
  split <;> simpa using this

theorem foldl_stepBatch_dir_preserved (succ ok score : String → Bool)
    (batches : List (List String)) :
    ∀ st f, f ∈ st.dir →
      f ∈ (batches.foldl (stepBatch succ ok score) st).dir := by
  induction batches with
  | nil =>
    intro st f h
    exact h
  | cons bt rest ih =>
    intro st f h
    rw [List.foldl_cons]
    apply ih
    obtain ⟨e, he, _⟩ := stepBatch_spec succ ok score st bt
    rw [he]
    exact List.mem_append_left _ h

theorem foldl_stepBatch_dir_mem (succ ok score : String → Bool)
    (batches : List (List String)) :
    ∀ st r b, b ∈ batches → r ∈ b → succ r = true →
      (r ++ ".png") ∈ (batches.foldl (stepBatch succ ok score) st).dir := by
  induction batches with
  | nil =>
    intro st r b hb
    cases hb
  | cons bt rest ih =>
    intro st r b hb hr hs
    rw [List.foldl_cons]
    rcases List.mem_cons.mp hb with rfl | hbr
    · exact foldl_stepBatch_dir_preserved succ ok score rest _ _
        (stepBatch_mem succ ok score st b r hr hs)
    · exact ih _ r b hbr hr hs

/-- The batch slices cover the reference list exactly. -/
theorem chunks_flatten (bs : Nat) (hbs : bs ≠ 0) (l : List String) :
    (chunks bs l).flatten = l := by
  match l with
  | [] =>
    rw [chunks]
    rfl
  | x :: xs =>
    rw [chunks, dif_neg hbs]
    have hrec := chunks_flatten bs hbs ((x :: xs).drop bs)
    simp only [List.flatten_cons, hrec]
    exact List.take_append_drop bs (x :: xs)
termination_by l.length
decreasing_by simp [List.length_drop]; omega

/-- The directory snapshots taken at the end of each batch iteration only
ever grow: each snapshot extends the previous one. -/
theorem foldl_stepBatch_chain (succ ok score : String → Bool)
    (batches : List (List String)) :
    ∀ st, List.Chain' (fun a b => ∃ e, b = a ++ e) st.dirTrace →
      (∀ last, st.dirTrace.getLast? = some last → ∃ e, st.dir = last ++ e) →
      List.Chain' (fun a b => ∃ e, b = a ++ e)
        ((batches.foldl (stepBatch succ ok score) st).dirTrace) := by
  induction batches with
  | nil =>
    intro st h1 _
    exact h1
  | cons bt rest ih =>
    intro st h1 h2
    rw [List.foldl_cons]
    obtain ⟨e0, he0, htr⟩ := stepBatch_spec succ ok score st bt
    apply ih
    · rw [htr, List.chain'_append]
      refine ⟨h1, List.chain'_singleton _, ?_⟩
      intro a ha b hb
      simp at hb
      subst hb
      obtain ⟨e1, he1⟩ := h2 a ha
      exact ⟨e1 ++ e0, by rw [he0, he1, List.append_assoc]⟩
    · intro last hlast
      rw [htr, List.getLast?_append] at hlast
      simp at hlast
      subst hlast
      exact ⟨[], by simp⟩

theorem runPipelineModel_state (bs : Nat) (succ ok score : String → Bool)
    (refs : List String) (store0 : List DetectionResult) (dir0 : List String)
    (hbs : bs ≠ 0) :
    (runPipelineModel bs succ ok score refs store0 dir0).2
      = (chunks bs refs).foldl (stepBatch succ ok score) ⟨dir0, store0, 0, 0, 0, []⟩ := by
  simp only [runPipelineModel]
  rw [if_neg hbs]
  split <;> rfl

/-- C2 counterexample: with batch size 1, references ["a", "b"] and every
download succeeding, the input directory still holds `a.png` after the first
batch's detection completed and before the second batch's downloads begin —
not zero files as the claim states. -/
theorem dir_not_cleared_counterexample :
    (runPipelineModel 1 (fun _ => true) (fun _ => true) (fun _ => true)
        ["a", "b"] [] []).2.dirTrace.head? = some ["a.png"] ∧
    ¬ ((["a.png"] : List String) = []) := by
  constructor
  · simp [runPipelineModel, chunks, stepBatch, processBatch, run_inference, merge,
      watermarkStatus, existingRefs, addFile, inputPathOf, outputPathOf,
      INPUT_DIR, OUTPUT_DIR, successRateOpt]
  · simp

/-- C2 amended: the batch loop of `run_pipeline` never clears the working
directory — no statement of the loop removes files.  Every successfully
downloaded file of every batch is still present at the end of the run, and
the directory snapshots taken after each batch's detection (before the next
batch's downloads) form a monotonically growing chain: files from earlier
batches mix with later batches' files instead of being wiped. -/
theorem dir_accumulates_across_batches (bs : Nat) (succ ok score : String → Bool)
    (refs : List String) (store0 : List DetectionResult) (dir0 : List String)
    (hbs : 0 < bs) :
    (∀ r, r ∈ refs → succ r = true →
      (r ++ ".png") ∈ (runPipelineModel bs succ ok score refs store0 dir0).2.dir) ∧
    List.Chain' (fun a b => ∃ e, b = a ++ e)
      ((runPipelineModel bs succ ok score refs store0 dir0).2.dirTrace) := by
  rw [runPipelineModel_state bs succ ok score refs store0 dir0 (by omega)]
  constructor
  · intro r hr hs
    have hcover : ∃ b ∈ chunks bs refs, r ∈ b := by
      rw [← chunks_flatten bs (by omega) refs] at hr
      exact List.mem_flatten.mp hr
    obtain ⟨b, hb, hrb⟩ := hcover
    exact foldl_stepBatch_dir_mem succ ok score (chunks bs refs) _ r b hb hrb hs
  · apply foldl_stepBatch_chain
    · exact List.chain'_nil
    · intro last hlast
      simp at hlast

/-- Witness for `dir_accumulates_across_batches` at a concrete one-batch run. -/
theorem dir_accumulates_across_batches_witness :
    ("a" ++ ".png") ∈ (runPipelineModel 1 (fun _ => true) (fun _ => true)
      (fun _ => true) ["a"] [] []).2.dir :=
  (dir_accumulates_across_batches 1 (fun _ => true) (fun _ => true) (fun _ => true)
    ["a"] [] [] (by decide)).1 "a" (by decide) rfl

/-- C10: when the scan discovers zero image references, the batch loop is
skipped and computing the success rate divides by the zero total: the
resulting ZeroDivisionError is caught by the top-level handler and the run
ends as a pipeline error, never as a completed summary. -/
theorem zero_refs_division_error (bs : Nat) (succ ok score : String → Bool)
    (store0 : List DetectionResult) (dir0 : List String) (h : 0 < bs) :
    (runPipelineModel bs succ ok score [] store0 dir0).1
      = PipelineOutcome.error "Pipeline error: ZeroDivisionError" := by
  unfold runPipelineModel
  rw [if_neg (by omega)]
  simp [chunks, successRateOpt]

/-- Witness for `zero_refs_division_error` at the default batch size 10. -/
theorem zero_refs_division_error_witness :
    (runPipelineModel 10 (fun _ => true) (fun _ => true) (fun _ => true) [] [] []).1
      = PipelineOutcome.error "Pipeline error: ZeroDivisionError" :=
  zero_refs_division_error 10 (fun _ => true) (fun _ => true) (fun _ => true) [] []
    (by decide)

end WatermarkDetection
